import Mathlib

/-!
Shallow embedding of `redisstore.go` (package redisstore): a server-side
session store backed by a Redis-like key/value backend.  Pure data is
translated directly; the Redis client, the inbound request cookie, the
cookie codec decode step and the random-key source are modelled as
explicit oracles passed in an environment, and every externally visible
effect of `Save` (cookies set on the response, backend SET and DEL calls)
is returned in the result so theorems can speak about it.
-/

/-- gorilla `sessions.Options`: per-session cookie configuration. -/
structure Options where
  path : String
  domain : String
  maxAge : Int
  secure : Bool
  httpOnly : Bool
deriving Repr, DecidableEq, Inhabited

/-- Value domain for the session attribute map (`Session.Values` in Go is
`map[interface{}]interface{}`; we model the gob-encodable values the
claims need: booleans, integers and strings). -/
inductive GobValue where
  | bool (b : Bool)
  | int (i : Int)
  | str (s : String)
deriving Repr, DecidableEq

/-- gorilla `sessions.Session`: id, name, attribute map, options, IsNew.
The attribute map is kept as an association list of gob values. -/
structure Session where
  id : String
  name : String
  values : List (GobValue × GobValue)
  options : Options
  isNew : Bool
deriving Repr, DecidableEq

/-- A `securecookie.Codec` in the store's codec list: either a
`*securecookie.SecureCookie` (which carries its own configured max-age,
settable through its `MaxAge` method) or some other codec implementation
(matching the type switch in `RedisStore.SetMaxAge`). -/
inductive Codec where
  | secureCookie (maxAge : Int)
  | other (tag : String)
deriving Repr, DecidableEq

/-- The value of a cookie written on the response: either the empty value
`""` written by the deletion branch of `Save`, or an authenticator-sealed
token.  The sealed token is kept structurally: the session name it is
bound to, the session id it embeds, and the expiry window (max-age) of
the codec that sealed it. -/
inductive CookieValue where
  | empty
  | sealed (name : String) (id : String) (maxAge : Int)
deriving Repr, DecidableEq

/-- A cookie set on the HTTP response via `http.SetCookie(w,
sessions.NewCookie(name, value, options))`. -/
structure Cookie where
  name : String
  value : CookieValue
  options : Options
deriving Repr, DecidableEq

/-- One backend `SET key value ttl` call issued to the Redis client. -/
structure SetCall where
  key : String
  value : List Nat
  ttlSeconds : Int
deriving Repr, DecidableEq

/-- The pluggable `SessionSerializer` interface.  In Go, `Deserialize`
receives the stored bytes and the session and writes the decoded map
into `ss.Values` (it touches nothing else); the out-parameter is
modelled as the returned value list. -/
structure Serializer where
  serialize : Session → Except String (List Nat)
  deserialize : List Nat → Except String (List (GobValue × GobValue))

/-- Environment of external effects for one request: the Redis client's
GET/SET/DEL results (go-redis `Get` reports a miss as an error, so a
miss is an `error` outcome of `getResult`), and the 32 random bytes
produced by `securecookie.GenerateRandomKey(32)`. -/
structure Env where
  getResult : String → Except String (List Nat)
  setResult : String → List Nat → Int → Except String Unit
  delResult : String → Except String Unit
  randomKey : List Nat

/-- `RedisStore` struct.  The Go field `keyPrefix` is modelled as
`keyPref` (the original name is reserved by our tooling); it is never
assigned anywhere in the source, so it is always the empty string for
stores built by `NewRedisStore`. -/
structure RedisStore where
  options : Options
  codecs : List Codec
  keyPref : String
  serializer : Serializer
  maxLength : Nat
  defaultMaxAge : Int

/- ## The base32 session-id generator

`Save` builds fresh ids with
`strings.TrimRight(base32.StdEncoding.EncodeToString(securecookie.GenerateRandomKey(32)), "=")`.
We model Go's `base32.StdEncoding` (RFC 4648: input is processed in
5-byte groups, a final partial group is zero-bit-padded and the unused
output characters are written as `=`). -/

/-- The RFC 4648 standard base32 alphabet used by Go's
`base32.StdEncoding`. -/
def b32alphabet : List Char := "ABCDEFGHIJKLMNOPQRSTUVWXYZ234567".toList

/-- Character for a 5-bit value. -/
def b32char (n : Nat) : Char := b32alphabet.getD (n % 32) 'A'

/-- How many non-padding output characters a final group of `k` input
bytes produces (`k ∈ [1,5]`; a full group produces all 8). -/
def b32dataCount : Nat → Nat
  | 1 => 2
  | 2 => 4
  | 3 => 5
  | 4 => 7
  | _ => 8

/-- Encode one input group of at most 5 bytes into 8 output characters,
padding the tail with `=` as `base32.StdEncoding` does. -/
def b32group (bs : List Nat) : List Char :=
  let p := bs ++ List.replicate (5 - bs.length) 0
  let n := p.foldl (fun acc b => acc * 256 + b % 256) 0
  let data := (List.range 8).map (fun i => b32char (n / 2 ^ (35 - 5 * i)))
  let d := b32dataCount bs.length
  data.take d ++ List.replicate (8 - d) '='

/-- `base32.StdEncoding.EncodeToString`, producing the character list:
full 5-byte groups first, then the final partial group. -/
def base32EncodeChars : List Nat → List Char
  | [] => []
  | b0 :: b1 :: b2 :: b3 :: b4 :: rest =>
      b32group [b0, b1, b2, b3, b4] ++ base32EncodeChars rest
  | bs => b32group bs

/-- Go `strings.TrimRight s "="` for a single-character cut set. -/
def trimRightEq (cs : List Char) (c : Char) : List Char :=
  (cs.reverse.dropWhile (fun x => x = c)).reverse

/-- The id generator of `RedisStore.Save` line 111, as a function of the
random bytes delivered by `securecookie.GenerateRandomKey(32)`. -/
def generateSessionId (key : List Nat) : String :=
  String.mk (trimRightEq (base32EncodeChars key) '=')

/- ## The gob payload codec

`GobSerializer` delegates to Go's `encoding/gob`.  Modelled from the
spec: the stored value format is "a generic binary object-graph
encoding supporting arbitrary key/value types known to both writer and
reader"; `encoding/gob` itself is outside this repository, so we give a
concrete tagged, length-prefixed binary encoding of the value domain
with the same interface contract (serialize fails only on unencodable
values — none exist in the modelled domain — and deserialize fails on
malformed input). -/

/-- Little-endian base-256 digits, driven by a fuel argument so the
recursion is structural (the fuel never runs out when it starts at the
number itself). -/
def natDigitsAux : Nat → Nat → List Nat
  | _, 0 => []
  | 0, _ + 1 => []
  | fuel + 1, n + 1 => (n + 1) % 256 :: natDigitsAux fuel ((n + 1) / 256)

/-- Little-endian base-256 digits of a natural number. -/
def natDigits (n : Nat) : List Nat := natDigitsAux n n

theorem natDigitsAux_congr (fuel1 : Nat) :
    ∀ fuel2 n, n ≤ fuel1 → n ≤ fuel2 → natDigitsAux fuel1 n = natDigitsAux fuel2 n := by
  induction fuel1 with
  | zero =>
    intro fuel2 n h1 _
    have : n = 0 := by omega
    subst this
    cases fuel2 <;> rfl
  | succ f ih =>
    intro fuel2 n h1 h2
    cases n with
    | zero => cases fuel2 <;> rfl
    | succ m =>
      cases fuel2 with
      | zero => omega
      | succ f2 =>
        show (m + 1) % 256 :: natDigitsAux f ((m + 1) / 256)
          = (m + 1) % 256 :: natDigitsAux f2 ((m + 1) / 256)
        have hlt : (m + 1) / 256 < m + 1 := Nat.div_lt_self (Nat.succ_pos m) (by norm_num)
        congr 1
        exact ih f2 ((m + 1) / 256) (by omega) (by omega)

/-- The recurrence `natDigits` satisfies. -/
theorem natDigits_eq (n : Nat) :
    natDigits n = if n = 0 then [] else n % 256 :: natDigits (n / 256) := by
  cases n with
  | zero => rfl
  | succ m =>
    rw [if_neg (Nat.succ_ne_zero m)]
    show (m + 1) % 256 :: natDigitsAux m ((m + 1) / 256)
      = (m + 1) % 256 :: natDigitsAux ((m + 1) / 256) ((m + 1) / 256)
    have hlt : (m + 1) / 256 < m + 1 := Nat.div_lt_self (Nat.succ_pos m) (by norm_num)
    rw [natDigitsAux_congr m ((m + 1) / 256) ((m + 1) / 256) (by omega) (by omega)]

/-- Read back a little-endian base-256 digit list. -/
def fromDigits : List Nat → Nat
  | [] => 0
  | d :: ds => d + 256 * fromDigits ds

/-- Length-prefixed encoding of a natural number. -/
def encNat (n : Nat) : List Nat :=
  (natDigits n).length :: natDigits n

/-- Parse a length-prefixed natural, returning the leftover input. -/
def parseNat (l : List Nat) : Option (Nat × List Nat) :=
  match l with
  | [] => none
  | len :: rest =>
      if len ≤ rest.length then some (fromDigits (rest.take len), rest.drop len)
      else none

/-- Sign-byte encoding of an integer. -/
def encInt (i : Int) : List Nat :=
  (if i < 0 then 1 else 0) :: encNat i.natAbs

/-- Parse an integer. -/
def parseInt (l : List Nat) : Option (Int × List Nat) :=
  match l with
  | 0 :: rest => (parseNat rest).map (fun p => ((p.1 : Int), p.2))
  | 1 :: rest => (parseNat rest).map (fun p => (-(p.1 : Int), p.2))
  | _ => none

/-- Length-prefixed encoding of a string as its character codepoints. -/
def encStr (s : String) : List Nat :=
  encNat s.data.length ++ s.data.map Char.toNat

/-- Parse a string. -/
def parseStr (l : List Nat) : Option (String × List Nat) :=
  match parseNat l with
  | none => none
  | some (n, rest) =>
      if n ≤ rest.length then
        some (String.mk ((rest.take n).map Char.ofNat), rest.drop n)
      else none

/-- Tagged encoding of one attribute value. -/
def encVal : GobValue → List Nat
  | GobValue.bool b => [0, if b then 1 else 0]
  | GobValue.int i => 1 :: encInt i
  | GobValue.str s => 2 :: encStr s

/-- Parse one tagged attribute value. -/
def parseVal (l : List Nat) : Option (GobValue × List Nat) :=
  match l with
  | 0 :: b :: rest => some (GobValue.bool (b == 1), rest)
  | 1 :: rest => (parseInt rest).map (fun p => (GobValue.int p.1, p.2))
  | 2 :: rest => (parseStr rest).map (fun p => (GobValue.str p.1, p.2))
  | _ => none

/-- Encode the entries of the attribute map in order. -/
def encEntries : List (GobValue × GobValue) → List Nat
  | [] => []
  | p :: ps => encVal p.1 ++ encVal p.2 ++ encEntries ps

/-- Encode the whole attribute map: entry count, then the entries. -/
def gobEncode (vs : List (GobValue × GobValue)) : List Nat :=
  encNat vs.length ++ encEntries vs

/-- Parse `n` key/value entries. -/
def parseEntries : Nat → List Nat → Option (List (GobValue × GobValue) × List Nat)
  | 0, l => some ([], l)
  | n + 1, l =>
      match parseVal l with
      | none => none
      | some (k, l1) =>
          match parseVal l1 with
          | none => none
          | some (v, l2) =>
              match parseEntries n l2 with
              | none => none
              | some (ps, l3) => some ((k, v) :: ps, l3)

/-- Decode a stored attribute map. -/
def gobDecode (l : List Nat) : Option (List (GobValue × GobValue)) :=
  match parseNat l with
  | none => none
  | some (n, rest) => (parseEntries n rest).map (fun p => p.1)

/-- The built-in `GobSerializer`: `Serialize` encodes `ss.Values`,
`Deserialize` decodes into `ss.Values`. -/
def GobSerializer : Serializer :=
  { serialize := fun s => Except.ok (gobEncode s.values)
    deserialize := fun d =>
      match gobDecode d with
      | some vs => Except.ok vs
      | none => Except.error "gob: decode error" }

/- ## Store construction and the store operations -/

/-- `var sessionExpire = 86400 * 30` — default cookie/key expiry. -/
def sessionExpire : Int := 86400 * 30

/-- Modelled from the spec: `securecookie.CodecsFromPairs` (outside this
repository) builds one SecureCookie codec per key pair, each with the
library's default expiry window of 30 days (86400 * 30 seconds). -/
def codecsFromPairs (numPairs : Nat) : List Codec :=
  List.replicate numPairs (Codec.secureCookie (86400 * 30))

/-- `NewRedisStore`: default options (Path "/", MaxAge `sessionExpire`,
zero values elsewhere), gob serializer, maxLength 4096, DefaultMaxAge
20 minutes, keyPrefix left at its zero value `""`. -/
def NewRedisStore (numPairs : Nat) : RedisStore :=
  { options :=
      { path := "/", domain := "", maxAge := sessionExpire
        secure := false, httpOnly := false }
    codecs := codecsFromPairs numPairs
    keyPref := ""
    serializer := GobSerializer
    maxLength := 4096
    defaultMaxAge := 60 * 20 }

/-- The fresh session built at the top of `RedisStore.New`
(`sessions.NewSession(rs, name)` plus the options copy and
`session.IsNew = true`). -/
def RedisStore.newSessionBase (rs : RedisStore) (name : String) : Session :=
  { id := "", name := name, values := [], options := rs.options, isNew := true }

/-- `RedisStore.load`: backend GET on `keyPrefix+id`; on a hit,
deserialize into the session.  Returns the Go `(bool, error)` pair
together with the (possibly updated) session. -/
def RedisStore.load (rs : RedisStore) (env : Env) (s : Session) :
    Bool × Option String × Session :=
  match env.getResult (rs.keyPref ++ s.id) with
  | Except.error e => (false, some e, s)
  | Except.ok data =>
      match rs.serializer.deserialize data with
      | Except.error e => (true, some e, s)
      | Except.ok vs => (true, none, { s with values := vs })

/-- `RedisStore.New`: build a fresh session with copied options and
`IsNew = true`; if the request carries a cookie named `name`, decode it
(`securecookie.DecodeMulti`, modelled as the `decode` oracle) into the
session id and attempt a load; `IsNew` ends up false exactly when the
load reported data with no error.  Returns the session and the error
handed back to the caller. -/
def RedisStore.New (rs : RedisStore) (cookie : Option String)
    (decode : String → String → Except String String)
    (env : Env) (name : String) : Session × Option String :=
  let s0 := rs.newSessionBase name
  match cookie with
  | none => (s0, none)
  | some cv =>
      match decode name cv with
      | Except.error e => (s0, some e)
      | Except.ok theId =>
          let s1 := { s0 with id := theId }
          match rs.load env s1 with
          | (ok, err, s2) => ({ s2 with isNew := !(err.isNone && ok) }, err)

/-- `RedisStore.delete`: backend DEL on `keyPrefix+id`. -/
def RedisStore.delete (rs : RedisStore) (env : Env) (s : Session) : Option String :=
  match env.delResult (rs.keyPref ++ s.id) with
  | Except.error e => some e
  | Except.ok _ => none

/-- The effective TTL computed in `RedisStore.save`:
`session.Options.MaxAge` if nonzero, else `rs.DefaultMaxAge`. -/
def RedisStore.effectiveTTL (rs : RedisStore) (s : Session) : Int :=
  if s.options.maxAge = 0 then rs.defaultMaxAge else s.options.maxAge

/-- `RedisStore.save`: serialize, enforce the configured maximum length
(`maxLength != 0 && len(b) > maxLength`), then backend SET with the
effective TTL.  Returns the error outcome and the list of SET calls
issued (the SET is issued, and recorded, even when the client reports
an error for it). -/
def RedisStore.save (rs : RedisStore) (env : Env) (s : Session) :
    Option String × List SetCall :=
  match rs.serializer.serialize s with
  | Except.error e => (some e, [])
  | Except.ok b =>
      if rs.maxLength ≠ 0 ∧ rs.maxLength < b.length then
        (some "SessionStore: the value to store is too big", [])
      else
        match env.setResult (rs.keyPref ++ s.id) b (rs.effectiveTTL s) with
        | Except.error e => (some e, [⟨rs.keyPref ++ s.id, b, rs.effectiveTTL s⟩])
        | Except.ok _ => (none, [⟨rs.keyPref ++ s.id, b, rs.effectiveTTL s⟩])

/-- Lines 110–112 of `Save`: generate a fresh id only when the session's
id is empty. -/
def saveInput (env : Env) (s : Session) : Session :=
  if s.id = "" then { s with id := generateSessionId env.randomKey } else s

/-- Modelled from the spec: `securecookie.EncodeMulti` (outside this
repository) seals the value under the first usable credential pair; the
sealed token embeds the name it is bound to, the session id, and the
sealing codec's own configured expiry window. -/
def encodeMultiModel (name theId : String) : List Codec → Except String CookieValue
  | [] => Except.error "securecookie: no codecs provided"
  | Codec.secureCookie ma :: _ => Except.ok (CookieValue.sealed name theId ma)
  | Codec.other _ :: rest => encodeMultiModel name theId rest

/-- Result of `RedisStore.Save`: the returned error, the cookies set on
the response, the backend SET and DEL calls issued, and the session as
it stands after the call (its id may have been assigned). -/
structure SaveResult where
  err : Option String
  cookies : List Cookie
  sets : List SetCall
  dels : List String
  session : Session

/-- `RedisStore.Save`: `MaxAge < 0` → backend DELETE then (only on
success) an empty-valued cookie; otherwise assign an id if empty, run
`save`, seal the id and (only if every step succeeded) set the sealed
cookie. -/
def RedisStore.Save (rs : RedisStore) (env : Env) (s : Session) : SaveResult :=
  if s.options.maxAge < 0 then
    match rs.delete env s with
    | some e => ⟨some e, [], [], [rs.keyPref ++ s.id], s⟩
    | none =>
        ⟨none, [⟨s.name, CookieValue.empty, s.options⟩], [], [rs.keyPref ++ s.id], s⟩
  else
    let s1 := saveInput env s
    match rs.save env s1 with
    | (some e, sets) => ⟨some e, [], sets, [], s1⟩
    | (none, sets) =>
        match encodeMultiModel s1.name s1.id rs.codecs with
        | Except.error e => ⟨some e, [], sets, [], s1⟩
        | Except.ok cv => ⟨none, [⟨s1.name, cv, s1.options⟩], sets, [], s1⟩

/-- The loop body of `RedisStore.SetMaxAge` over the codec list: a
`*SecureCookie` codec gets its max-age set to `v`; any other codec is
left unchanged and a diagnostic line is printed.  Returns the updated
codecs and the diagnostics in order. -/
def setMaxAgeCodecs (v : Int) : List Codec → List Codec × List String
  | [] => ([], [])
  | Codec.secureCookie _ :: rest =>
      let r := setMaxAgeCodecs v rest
      (Codec.secureCookie v :: r.1, r.2)
  | Codec.other t :: rest =>
      let r := setMaxAgeCodecs v rest
      (Codec.other t :: r.1, ("Cannot change MaxAge on codec " ++ t) :: r.2)

/-- `RedisStore.SetMaxAge`: set the store-wide default `Options.MaxAge`
and propagate to every SecureCookie codec.  Returns the updated store
and the printed diagnostics. -/
def RedisStore.SetMaxAge (rs : RedisStore) (v : Int) : RedisStore × List String :=
  let r := setMaxAgeCodecs v rs.codecs
  ({ rs with options := { rs.options with maxAge := v }, codecs := r.1 }, r.2)

/-- Pointer-level model of lines 88–89 of `New` (`options := *rs.Options;
session.Options = &options`): on a heap of `Options` cells, read the
store's cell and allocate a fresh cell holding the copy; the new
session's options pointer is the fresh index. -/
def copyOptionsAlloc (heap : List Options) (storePtr : Nat) : List Options × Nat :=
  (heap ++ [heap.getD storePtr default], heap.length)

/-! ## Round-trip of the payload codec -/

theorem fromDigits_natDigits (n : Nat) : fromDigits (natDigits n) = n := by
  induction n using Nat.strong_induction_on with
  | _ n ih =>
    rw [natDigits_eq]
    split
    · simp [fromDigits, *]
    · rename_i h
      rw [fromDigits, ih (n / 256) (Nat.div_lt_self (Nat.pos_of_ne_zero h) (by norm_num))]
      exact Nat.mod_add_div n 256

theorem parseNat_encNat (n : Nat) (r : List Nat) :
    parseNat (encNat n ++ r) = some (n, r) := by
  simp only [encNat, List.cons_append, parseNat]
  rw [if_pos (by simp), List.take_left, List.drop_left, fromDigits_natDigits]

theorem parseInt_encInt (i : Int) (r : List Nat) :
    parseInt (encInt i ++ r) = some (i, r) := by
  by_cases hi : i < 0
  · have h1 : -(i.natAbs : Int) = i := by omega
    simp only [encInt, if_pos hi, List.cons_append, parseInt, parseNat_encNat,
      Option.map_some', h1]
  · have h1 : ((i.natAbs : Int)) = i := by omega
    simp only [encInt, if_neg hi, List.cons_append, parseInt, parseNat_encNat,
      Option.map_some', h1]

theorem parseStr_encStr (s : String) (r : List Nat) :
    parseStr (encStr s ++ r) = some (s, r) := by
  obtain ⟨data⟩ := s
  simp only [encStr, List.append_assoc, parseStr, parseNat_encNat]
  rw [if_pos (by simp)]
  rw [List.take_left' (by simp), List.drop_left' (by simp)]
  have hcomp : Char.ofNat ∘ Char.toNat = id := by
    funext c
    simp [Function.comp, Char.ofNat_toNat]
  simp [List.map_map, hcomp]

theorem parseVal_encVal (v : GobValue) (r : List Nat) :
    parseVal (encVal v ++ r) = some (v, r) := by
  cases v with
  | bool b => cases b <;> rfl
  | int i => simp [encVal, parseVal, parseInt_encInt]
  | str s => simp [encVal, parseVal, parseStr_encStr]

theorem parseEntries_encEntries (vs : List (GobValue × GobValue)) (r : List Nat) :
    parseEntries vs.length (encEntries vs ++ r) = some (vs, r) := by
  induction vs generalizing r with
  | nil => rfl
  | cons p ps ih =>
    simp only [List.length_cons, encEntries, parseEntries, List.append_assoc,
      parseVal_encVal, ih]

theorem gobDecode_gobEncode (vs : List (GobValue × GobValue)) :
    gobDecode (gobEncode vs) = some vs := by
  have h := parseEntries_encEntries vs []
  rw [List.append_nil] at h
  simp [gobDecode, gobEncode, parseNat_encNat, h]

/-- C3: for every attribute map the gob codec accepts, deserializing the
serialized bytes restores exactly that map:
`Deserialize(Serialize(v)) == v` (stated over the session carrying the
map `v`, as the Go interface does). -/
theorem gobSerializer_roundtrip (s : Session) (b : List Nat)
    (h : GobSerializer.serialize s = Except.ok b) :
    GobSerializer.deserialize b = Except.ok s.values := by
  have hb : b = gobEncode s.values := by
    simpa [GobSerializer] using h.symm
  subst hb
  simp [GobSerializer, gobDecode_gobEncode]

/-- Witness for C3 at a concrete two-entry attribute map. -/
theorem gobSerializer_roundtrip_witness :
    GobSerializer.deserialize
        (gobEncode [(GobValue.str "key", GobValue.str "ok"),
          (GobValue.int (-5), GobValue.bool true)])
      = Except.ok [(GobValue.str "key", GobValue.str "ok"),
          (GobValue.int (-5), GobValue.bool true)] :=
  gobSerializer_roundtrip
    { id := "", name := "w",
      values := [(GobValue.str "key", GobValue.str "ok"),
        (GobValue.int (-5), GobValue.bool true)],
      options := default, isNew := true }
    _ rfl

/-! ## Shape of generated session identifiers -/

theorem b32char_mem (n : Nat) : b32char n ∈ b32alphabet := by
  have key : ∀ m, m < 32 → b32alphabet.getD m 'A' ∈ b32alphabet := by decide
  exact key _ (Nat.mod_lt _ (by norm_num))

theorem eq_char_not_mem_b32alphabet : '=' ∉ b32alphabet := by decide

theorem b32group_len5 (bs : List Nat) (h : bs.length = 5) :
    (b32group bs).length = 8 ∧ ∀ c ∈ b32group bs, c ∈ b32alphabet := by
  have hd : b32dataCount 5 = 8 := rfl
  simp only [b32group, h, hd]
  rw [List.take_of_length_le (by simp)]
  constructor
  · simp
  · intro c hc
    simp only [Nat.sub_self, List.replicate_zero, List.append_nil, List.mem_map] at hc
    obtain ⟨i, _, rfl⟩ := hc
    exact b32char_mem _

theorem b32group_len2 (bs : List Nat) (h : bs.length = 2) :
    ∃ dataCs, b32group bs = dataCs ++ List.replicate 4 '='
      ∧ dataCs.length = 4 ∧ ∀ c ∈ dataCs, c ∈ b32alphabet := by
  have hd : b32dataCount 2 = 4 := rfl
  refine ⟨((List.range 8).map (fun i =>
      b32char ((bs ++ List.replicate (5 - bs.length) 0).foldl
        (fun acc b => acc * 256 + b % 256) 0 / 2 ^ (35 - 5 * i)))).take 4, ?_, ?_, ?_⟩
  · simp only [b32group, h, hd]
  · simp
  · intro c hc
    obtain ⟨i, _, rfl⟩ := List.mem_map.mp (List.mem_of_mem_take hc)
    exact b32char_mem _

theorem base32EncodeChars_cons_five (g rest : List Nat) (h : g.length = 5) :
    base32EncodeChars (g ++ rest) = b32group g ++ base32EncodeChars rest := by
  rcases g with _ | ⟨a, _ | ⟨b, _ | ⟨c, _ | ⟨d, _ | ⟨e, tail⟩⟩⟩⟩⟩ <;> simp at h
  subst h
  rfl

theorem base32EncodeChars_shape (k : Nat) :
    ∀ key : List Nat, key.length = 5 * k + 2 →
      ∃ body, base32EncodeChars key = body ++ List.replicate 4 '='
        ∧ body.length = 8 * k + 4 ∧ ∀ c ∈ body, c ∈ b32alphabet := by
  induction k with
  | zero =>
    intro key hk
    obtain ⟨dataCs, hgroup, hlen, hmem⟩ := b32group_len2 key (by omega)
    refine ⟨dataCs, ?_, by omega, hmem⟩
    obtain ⟨x, y, rfl⟩ := List.length_eq_two.mp (show key.length = 2 by omega)
    rw [show base32EncodeChars [x, y] = b32group [x, y] from rfl, hgroup]
  | succ k ih =>
    intro key hk
    have hg : (key.take 5).length = 5 := by
      rw [List.length_take]
      omega
    have hr : (key.drop 5).length = 5 * k + 2 := by
      rw [List.length_drop]
      omega
    obtain ⟨body, hbody, hblen, hbmem⟩ := ih (key.drop 5) hr
    obtain ⟨hg8, hgmem⟩ := b32group_len5 (key.take 5) hg
    refine ⟨b32group (key.take 5) ++ body, ?_, by simp [hg8]; omega, ?_⟩
    · conv_lhs => rw [← List.take_append_drop 5 key]
      rw [base32EncodeChars_cons_five _ _ hg, hbody, List.append_assoc]
    · intro c hc
      rcases List.mem_append.mp hc with hc | hc
      · exact hgmem c hc
      · exact hbmem c hc

theorem dropWhile_replicate_eq (k : Nat) (ys : List Char) (c : Char) :
    List.dropWhile (fun x => x = c) (List.replicate k c ++ ys)
      = List.dropWhile (fun x => x = c) ys := by
  induction k with
  | zero => simp
  | succ k ih => simp [List.replicate_succ, List.dropWhile_cons, ih]

theorem trimRightEq_append_replicate (xs : List Char) (k : Nat)
    (hx : ∀ x ∈ xs, x ∈ b32alphabet) :
    trimRightEq (xs ++ List.replicate k '=') '=' = xs := by
  unfold trimRightEq
  rw [List.reverse_append, List.reverse_replicate, dropWhile_replicate_eq]
  cases hrev : xs.reverse with
  | nil =>
    have : xs = [] := by simpa using congrArg List.reverse hrev
    simp [this, hrev]
  | cons y t =>
    have hy : y ∈ xs := by
      have : y ∈ xs.reverse := by rw [hrev]; exact List.mem_cons_self y t
      simpa using this
    have hyne : ¬(y = '=') := by
      intro hcon
      exact eq_char_not_mem_b32alphabet (hcon ▸ hx y hy)
    rw [List.dropWhile_cons, if_neg (by simp [hyne]), ← hrev, List.reverse_reverse]

/-! ## Branch equations for the store operations -/

theorem delete_eq_some (rs : RedisStore) (env : Env) (s : Session) (e : String)
    (h : env.delResult (rs.keyPref ++ s.id) = Except.error e) :
    rs.delete env s = some e := by
  simp [RedisStore.delete, h]

theorem delete_eq_none (rs : RedisStore) (env : Env) (s : Session) (u : Unit)
    (h : env.delResult (rs.keyPref ++ s.id) = Except.ok u) :
    rs.delete env s = none := by
  simp [RedisStore.delete, h]

theorem save_serialize_err (rs : RedisStore) (env : Env) (s : Session) (e : String)
    (h : rs.serializer.serialize s = Except.error e) :
    rs.save env s = (some e, []) := by
  simp [RedisStore.save, h]

theorem save_too_big (rs : RedisStore) (env : Env) (s : Session) (b : List Nat)
    (h : rs.serializer.serialize s = Except.ok b)
    (h1 : rs.maxLength ≠ 0) (h2 : rs.maxLength < b.length) :
    rs.save env s = (some "SessionStore: the value to store is too big", []) := by
  simp [RedisStore.save, h, if_pos (And.intro h1 h2)]

theorem save_set_err (rs : RedisStore) (env : Env) (s : Session) (b : List Nat)
    (e : String) (h : rs.serializer.serialize s = Except.ok b)
    (hsz : ¬(rs.maxLength ≠ 0 ∧ rs.maxLength < b.length))
    (hset : env.setResult (rs.keyPref ++ s.id) b (rs.effectiveTTL s) = Except.error e) :
    rs.save env s = (some e, [⟨rs.keyPref ++ s.id, b, rs.effectiveTTL s⟩]) := by
  simp [RedisStore.save, h, if_neg hsz, hset]

theorem save_set_ok (rs : RedisStore) (env : Env) (s : Session) (b : List Nat)
    (u : Unit) (h : rs.serializer.serialize s = Except.ok b)
    (hsz : ¬(rs.maxLength ≠ 0 ∧ rs.maxLength < b.length))
    (hset : env.setResult (rs.keyPref ++ s.id) b (rs.effectiveTTL s) = Except.ok u) :
    rs.save env s = (none, [⟨rs.keyPref ++ s.id, b, rs.effectiveTTL s⟩]) := by
  simp [RedisStore.save, h, if_neg hsz, hset]

theorem Save_del_err (rs : RedisStore) (env : Env) (s : Session) (e : String)
    (hma : s.options.maxAge < 0) (hdel : rs.delete env s = some e) :
    RedisStore.Save rs env s = ⟨some e, [], [], [rs.keyPref ++ s.id], s⟩ := by
  simp [RedisStore.Save, hma, hdel]

theorem Save_del_ok (rs : RedisStore) (env : Env) (s : Session)
    (hma : s.options.maxAge < 0) (hdel : rs.delete env s = none) :
    RedisStore.Save rs env s
      = ⟨none, [⟨s.name, CookieValue.empty, s.options⟩], [], [rs.keyPref ++ s.id], s⟩ := by
  simp [RedisStore.Save, hma, hdel]

theorem Save_save_err (rs : RedisStore) (env : Env) (s : Session) (e : String)
    (sets : List SetCall) (hma : ¬s.options.maxAge < 0)
    (hs : rs.save env (saveInput env s) = (some e, sets)) :
    RedisStore.Save rs env s = ⟨some e, [], sets, [], saveInput env s⟩ := by
  simp [RedisStore.Save, hma, hs]

theorem Save_enc_err (rs : RedisStore) (env : Env) (s : Session) (e : String)
    (sets : List SetCall) (hma : ¬s.options.maxAge < 0)
    (hs : rs.save env (saveInput env s) = (none, sets))
    (henc : encodeMultiModel (saveInput env s).name (saveInput env s).id rs.codecs
      = Except.error e) :
    RedisStore.Save rs env s = ⟨some e, [], sets, [], saveInput env s⟩ := by
  simp [RedisStore.Save, hma, hs, henc]

theorem Save_enc_ok (rs : RedisStore) (env : Env) (s : Session) (cv : CookieValue)
    (sets : List SetCall) (hma : ¬s.options.maxAge < 0)
    (hs : rs.save env (saveInput env s) = (none, sets))
    (henc : encodeMultiModel (saveInput env s).name (saveInput env s).id rs.codecs
      = Except.ok cv) :
    RedisStore.Save rs env s
      = ⟨none, [⟨(saveInput env s).name, cv, (saveInput env s).options⟩],
          sets, [], saveInput env s⟩ := by
  simp [RedisStore.Save, hma, hs, henc]

theorem saveInput_options (env : Env) (s : Session) :
    (saveInput env s).options = s.options := by
  unfold saveInput
  split <;> rfl

theorem saveInput_name (env : Env) (s : Session) :
    (saveInput env s).name = s.name := by
  unfold saveInput
  split <;> rfl

theorem saveInput_id_of_ne (env : Env) (s : Session) (h : s.id ≠ "") :
    saveInput env s = s := by
  unfold saveInput
  rw [if_neg h]

theorem saveInput_id_of_empty (env : Env) (s : Session) (h : s.id = "") :
    (saveInput env s).id = generateSessionId env.randomKey := by
  unfold saveInput
  rw [if_pos h]

/-! ## Projections of the Save result by branch -/

theorem Save_session_eq (rs : RedisStore) (env : Env) (s : Session) :
    (RedisStore.Save rs env s).session
      = if s.options.maxAge < 0 then s else saveInput env s := by
  by_cases hma : s.options.maxAge < 0
  · rw [if_pos hma]
    cases hdel : rs.delete env s with
    | none => rw [Save_del_ok rs env s hma hdel]
    | some e => rw [Save_del_err rs env s e hma hdel]
  · rw [if_neg hma]
    rcases hs : rs.save env (saveInput env s) with ⟨e?, sets⟩
    cases e? with
    | some e => rw [Save_save_err rs env s e sets hma hs]
    | none =>
      cases henc : encodeMultiModel (saveInput env s).name (saveInput env s).id
          rs.codecs with
      | error e => rw [Save_enc_err rs env s e sets hma hs henc]
      | ok cv => rw [Save_enc_ok rs env s cv sets hma hs henc]

theorem Save_sets_eq (rs : RedisStore) (env : Env) (s : Session)
    (hma : ¬s.options.maxAge < 0) :
    (RedisStore.Save rs env s).sets = (rs.save env (saveInput env s)).2 := by
  rcases hs : rs.save env (saveInput env s) with ⟨e?, sets⟩
  cases e? with
  | some e => rw [Save_save_err rs env s e sets hma hs]
  | none =>
    cases henc : encodeMultiModel (saveInput env s).name (saveInput env s).id
        rs.codecs with
    | error e => rw [Save_enc_err rs env s e sets hma hs henc]
    | ok cv => rw [Save_enc_ok rs env s cv sets hma hs henc]

theorem Save_dels_eq (rs : RedisStore) (env : Env) (s : Session)
    (hma : s.options.maxAge < 0) :
    (RedisStore.Save rs env s).dels = [rs.keyPref ++ s.id] := by
  cases hdel : rs.delete env s with
  | none => rw [Save_del_ok rs env s hma hdel]
  | some e => rw [Save_del_err rs env s e hma hdel]

theorem save_sets_ttl (rs : RedisStore) (env : Env) (s : Session) :
    ∀ call ∈ (rs.save env s).2, call.ttlSeconds = rs.effectiveTTL s := by
  cases hser : rs.serializer.serialize s with
  | error e => rw [save_serialize_err rs env s e hser]; simp
  | ok b =>
    by_cases hsz : rs.maxLength ≠ 0 ∧ rs.maxLength < b.length
    · rw [save_too_big rs env s b hser hsz.1 hsz.2]; simp
    · cases hset : env.setResult (rs.keyPref ++ s.id) b (rs.effectiveTTL s) with
      | error e => rw [save_set_err rs env s b e hser hsz hset]; simp
      | ok u => rw [save_set_ok rs env s b u hser hsz hset]; simp

/-! ## Concrete fixtures used by the witnesses -/

/-- Options with the default path and a chosen max-age. -/
def optsW (ma : Int) : Options := ⟨"/", "", ma, false, false⟩

/-- A session with a chosen id and max-age and an empty attribute map. -/
def sessW (theId : String) (ma : Int) : Session := ⟨theId, "mysession", [], optsW ma, false⟩

/-- An environment whose backend calls all succeed. -/
def envOkW : Env :=
  ⟨fun _ => Except.ok (gobEncode []), fun _ _ _ => Except.ok (),
   fun _ => Except.ok (), List.replicate 32 0⟩

/-- An environment whose backend DEL fails. -/
def envDelErrW : Env := { envOkW with delResult := fun _ => Except.error "boom" }

/-- A store with a very small configured maximum payload length. -/
def rsSmallW : RedisStore := { NewRedisStore 1 with maxLength := 1 }

/-- A session carrying one attribute entry. -/
def sValsW : Session :=
  ⟨"abc", "mysession", [(GobValue.str "key", GobValue.str "ok")], optsW 0, false⟩

/-! ## The claims about Save -/

/-- C2: Save sets a cookie on the response only after the corresponding
backend operation succeeded: in the MaxAge < 0 branch a failed backend
DELETE makes Save return that error with no cookie written, and in the
MaxAge >= 0 branch a failed serialize, failed size check or failed
backend SET makes Save return that error with no cookie written. -/
theorem save_cookie_only_after_backend (rs : RedisStore) (env : Env) (s : Session) :
    ((RedisStore.Save rs env s).err ≠ none → (RedisStore.Save rs env s).cookies = [])
    ∧ (∀ e, s.options.maxAge < 0 →
        env.delResult (rs.keyPref ++ s.id) = Except.error e →
          (RedisStore.Save rs env s).err = some e
          ∧ (RedisStore.Save rs env s).cookies = [])
    ∧ (∀ e, ¬s.options.maxAge < 0 →
        (rs.save env (saveInput env s)).1 = some e →
          (RedisStore.Save rs env s).err = some e
          ∧ (RedisStore.Save rs env s).cookies = [])
    ∧ (∀ e, rs.serializer.serialize (saveInput env s) = Except.error e →
        (rs.save env (saveInput env s)).1 = some e)
    ∧ (∀ b, rs.serializer.serialize (saveInput env s) = Except.ok b →
        rs.maxLength ≠ 0 → rs.maxLength < b.length →
        (rs.save env (saveInput env s)).1
          = some "SessionStore: the value to store is too big")
    ∧ (∀ b e, rs.serializer.serialize (saveInput env s) = Except.ok b →
        ¬(rs.maxLength ≠ 0 ∧ rs.maxLength < b.length) →
        env.setResult (rs.keyPref ++ (saveInput env s).id) b
            (rs.effectiveTTL (saveInput env s)) = Except.error e →
        (rs.save env (saveInput env s)).1 = some e) := by
  refine ⟨?_, ?_, ?_, ?_, ?_, ?_⟩
  · intro herr
    by_cases hma : s.options.maxAge < 0
    · cases hdel : rs.delete env s with
      | none => rw [Save_del_ok rs env s hma hdel] at herr; simp at herr
      | some e => rw [Save_del_err rs env s e hma hdel]
    · rcases hs : rs.save env (saveInput env s) with ⟨e?, sets⟩
      cases e? with
      | some e => rw [Save_save_err rs env s e sets hma hs]
      | none =>
        cases henc : encodeMultiModel (saveInput env s).name (saveInput env s).id
            rs.codecs with
        | error e => rw [Save_enc_err rs env s e sets hma hs henc]
        | ok cv =>
          rw [Save_enc_ok rs env s cv sets hma hs henc] at herr
          simp at herr
  · intro e hma hdel
    rw [Save_del_err rs env s e hma (delete_eq_some rs env s e hdel)]
    exact ⟨rfl, rfl⟩
  · intro e hma hfst
    rcases hs : rs.save env (saveInput env s) with ⟨e?, sets⟩
    rw [hs] at hfst
    simp only at hfst
    rw [hfst] at hs
    rw [Save_save_err rs env s e sets hma hs]
    exact ⟨rfl, rfl⟩
  · intro e hser
    rw [save_serialize_err rs env _ e hser]
  · intro b hser h1 h2
    rw [save_too_big rs env _ b hser h1 h2]
  · intro b e hser hsz hset
    rw [save_set_err rs env _ b e hser hsz hset]

/-- Witness for C2: a failed backend DELETE surfaces the error and no
cookie is set. -/
theorem save_cookie_only_after_backend_witness :
    (RedisStore.Save (NewRedisStore 1) envDelErrW (sessW "abc" (-1))).err = some "boom"
    ∧ (RedisStore.Save (NewRedisStore 1) envDelErrW (sessW "abc" (-1))).cookies = [] :=
  (save_cookie_only_after_backend (NewRedisStore 1) envDelErrW
    (sessW "abc" (-1))).2.1 "boom" (by decide) rfl

/-- C4: a payload longer than the configured maximum (default 4096,
with 0 meaning unlimited) is rejected with the size-limit error and no
backend SET is issued. -/
theorem save_size_limit (rs : RedisStore) (env : Env) (s : Session) :
    (∀ b, ¬s.options.maxAge < 0 →
        rs.serializer.serialize (saveInput env s) = Except.ok b →
        rs.maxLength ≠ 0 → rs.maxLength < b.length →
        (RedisStore.Save rs env s).err
            = some "SessionStore: the value to store is too big"
        ∧ (RedisStore.Save rs env s).sets = []
        ∧ (RedisStore.Save rs env s).cookies = [])
    ∧ (∀ numPairs, (NewRedisStore numPairs).maxLength = 4096)
    ∧ (rs.maxLength = 0 → ∀ b,
        rs.serializer.serialize (saveInput env s) = Except.ok b →
        (rs.save env (saveInput env s)).2
          = [⟨rs.keyPref ++ (saveInput env s).id, b,
              rs.effectiveTTL (saveInput env s)⟩]) := by
  refine ⟨?_, fun _ => rfl, ?_⟩
  · intro b hma hser h1 h2
    have hs := save_too_big rs env (saveInput env s) b hser h1 h2
    rw [Save_save_err rs env s _ [] hma hs]
    exact ⟨rfl, rfl, rfl⟩
  · intro hml b hser
    have hsz : ¬(rs.maxLength ≠ 0 ∧ rs.maxLength < b.length) := by simp [hml]
    cases hset : env.setResult (rs.keyPref ++ (saveInput env s).id) b
        (rs.effectiveTTL (saveInput env s)) with
    | error e => rw [save_set_err rs env _ b e hser hsz hset]
    | ok u => rw [save_set_ok rs env _ b u hser hsz hset]

/-- Witness for C4: a 1-byte limit rejects a one-entry map with the
size error and no SET call. -/
theorem save_size_limit_witness :
    (RedisStore.Save rsSmallW envOkW sValsW).err
        = some "SessionStore: the value to store is too big"
    ∧ (RedisStore.Save rsSmallW envOkW sValsW).sets = []
    ∧ (RedisStore.Save rsSmallW envOkW sValsW).cookies = [] :=
  (save_size_limit rsSmallW envOkW sValsW).1 (gobEncode sValsW.values)
    (by decide) rfl (by decide) (by decide)

/-- C5: every backend SET issued by Save on a store built by
NewRedisStore carries TTL `Options.MaxAge` seconds when that is nonzero
and the 20-minute default (1200 seconds) when it is zero. -/
theorem save_ttl_spec (numPairs : Nat) (env : Env) (s : Session)
    (hma : ¬s.options.maxAge < 0) :
    ∀ call ∈ (RedisStore.Save (NewRedisStore numPairs) env s).sets,
      call.ttlSeconds = if s.options.maxAge = 0 then 1200 else s.options.maxAge := by
  intro call hcall
  rw [Save_sets_eq (NewRedisStore numPairs) env s hma] at hcall
  have h := save_sets_ttl (NewRedisStore numPairs) env (saveInput env s) call hcall
  rw [h, RedisStore.effectiveTTL, saveInput_options]
  have hdef : (NewRedisStore numPairs).defaultMaxAge = 1200 := rfl
  rw [hdef]

/-- Witness for C5: saving a zero-max-age session issues its SET with
the default 1200-second TTL. -/
theorem save_ttl_spec_witness :
    (⟨"abc", gobEncode [], 1200⟩ : SetCall).ttlSeconds
      = if (sessW "abc" 0).options.maxAge = 0 then 1200
        else (sessW "abc" 0).options.maxAge :=
  save_ttl_spec 1 envOkW (sessW "abc" 0) (by decide)
    ⟨"abc", gobEncode [], 1200⟩ (by decide)

/-- C6: the session id is assigned at most once: Save generates an id
only when the session's ID is empty, a session with a non-empty ID keeps
it unchanged through Save, and a generated id is a fixed-length (52
character) token over the base32 alphabet, hence safe as a storage key
and cookie value.  (The 32 input bytes come from
`securecookie.GenerateRandomKey`, whose cryptographically secure source
is outside this embedding.) -/
theorem session_id_assigned_once :
    (∀ rs env s, s.id ≠ "" → (RedisStore.Save rs env s).session.id = s.id)
    ∧ (∀ rs env s, ¬s.options.maxAge < 0 → s.id = "" →
        (RedisStore.Save rs env s).session.id = generateSessionId env.randomKey)
    ∧ (∀ key : List Nat, key.length = 32 →
        (generateSessionId key).length = 52
        ∧ ∀ c ∈ (generateSessionId key).toList, c ∈ b32alphabet) := by
  refine ⟨?_, ?_, ?_⟩
  · intro rs env s h
    rw [Save_session_eq]
    split
    · rfl
    · rw [saveInput_id_of_ne env s h]
  · intro rs env s hma hid
    rw [Save_session_eq, if_neg hma, saveInput_id_of_empty env s hid]
  · intro key hk
    obtain ⟨body, henc, hblen, hbmem⟩ := base32EncodeChars_shape 6 key (by omega)
    have htrim : trimRightEq (base32EncodeChars key) '=' = body := by
      rw [henc, trimRightEq_append_replicate body 4 hbmem]
    constructor
    · rw [generateSessionId, htrim, String.length_mk, hblen]
    · intro c hc
      rw [generateSessionId, htrim] at hc
      exact hbmem c hc

/-- Witness for C6: a non-empty id survives Save; an empty id becomes
the generated token; the token generated from 32 zero bytes has length
52. -/
theorem session_id_assigned_once_witness :
    (RedisStore.Save (NewRedisStore 1) envOkW (sessW "abc" 0)).session.id = "abc"
    ∧ (RedisStore.Save (NewRedisStore 1) envOkW (sessW "" 0)).session.id
        = generateSessionId (List.replicate 32 0)
    ∧ (generateSessionId (List.replicate 32 0)).length = 52 :=
  ⟨session_id_assigned_once.1 (NewRedisStore 1) envOkW (sessW "abc" 0) (by decide),
   session_id_assigned_once.2.1 (NewRedisStore 1) envOkW (sessW "" 0) (by decide) rfl,
   (session_id_assigned_once.2.2 (List.replicate 32 0) (by decide)).1⟩

/-- The shape of one pass of the SetMaxAge loop over the codec list. -/
theorem setMaxAgeCodecs_spec (v : Int) (cs : List Codec) :
    setMaxAgeCodecs v cs
      = (cs.map (fun c => match c with
          | Codec.secureCookie _ => Codec.secureCookie v
          | Codec.other t => Codec.other t),
         cs.filterMap (fun c => match c with
          | Codec.secureCookie _ => none
          | Codec.other t => some ("Cannot change MaxAge on codec " ++ t))) := by
  induction cs with
  | nil => rfl
  | cons c rest ih => cases c <;> simp [setMaxAgeCodecs, ih]

/-- C9: SetMaxAge(v) sets the store-wide default max-age to v,
propagates v to every SecureCookie codec in the list, leaves every
other codec unchanged while emitting one non-fatal diagnostic for it,
and always completes (it is a total function). -/
theorem setMaxAge_spec (rs : RedisStore) (v : Int) :
    ((rs.SetMaxAge v).1.options.maxAge = v)
    ∧ ((rs.SetMaxAge v).1.codecs = rs.codecs.map (fun c => match c with
        | Codec.secureCookie _ => Codec.secureCookie v
        | Codec.other t => Codec.other t))
    ∧ ((rs.SetMaxAge v).2 = rs.codecs.filterMap (fun c => match c with
        | Codec.secureCookie _ => none
        | Codec.other t => some ("Cannot change MaxAge on codec " ++ t))) := by
  refine ⟨rfl, ?_, ?_⟩ <;>
    simp [RedisStore.SetMaxAge, setMaxAgeCodecs_spec]

/-- C10: with MaxAge < 0 the backend DELETE goes to `keyPrefix + id`
even when the id is empty — the deleted key is then the bare key prefix
(the empty key when the prefix is empty) — and on success Save still
sets an empty-valued cookie. -/
theorem save_delete_bare_key (rs : RedisStore) (env : Env) (s : Session)
    (hma : s.options.maxAge < 0) (hid : s.id = "") :
    (RedisStore.Save rs env s).dels = [rs.keyPref]
    ∧ (rs.keyPref = "" → (RedisStore.Save rs env s).dels = [""])
    ∧ (∀ u, env.delResult rs.keyPref = Except.ok u →
        (RedisStore.Save rs env s).err = none
        ∧ (RedisStore.Save rs env s).cookies
            = [⟨s.name, CookieValue.empty, s.options⟩]) := by
  have hkey : rs.keyPref ++ s.id = rs.keyPref := by
    rw [hid, String.append_empty]
  have hdels : (RedisStore.Save rs env s).dels = [rs.keyPref] := by
    rw [Save_dels_eq rs env s hma, hkey]
  refine ⟨hdels, ?_, ?_⟩
  · intro hpre
    rw [hdels, hpre]
  · intro u hdel
    have hdel2 : env.delResult (rs.keyPref ++ s.id) = Except.ok u := by
      rw [hkey]
      exact hdel
    rw [Save_del_ok rs env s hma (delete_eq_none rs env s u hdel2)]
    exact ⟨rfl, rfl⟩

/-- Witness for C10: deleting a never-persisted session on a
default store deletes the empty key and sets the empty cookie. -/
theorem save_delete_bare_key_witness :
    (RedisStore.Save (NewRedisStore 1) envOkW (sessW "" (-1))).dels = [""]
    ∧ (RedisStore.Save (NewRedisStore 1) envOkW (sessW "" (-1))).err = none
    ∧ (RedisStore.Save (NewRedisStore 1) envOkW (sessW "" (-1))).cookies
        = [⟨"mysession", CookieValue.empty, optsW (-1)⟩] :=
  ⟨(save_delete_bare_key (NewRedisStore 1) envOkW (sessW "" (-1))
      (by decide) rfl).2.1 rfl,
   ((save_delete_bare_key (NewRedisStore 1) envOkW (sessW "" (-1))
      (by decide) rfl).2.2 () rfl).1,
   ((save_delete_bare_key (NewRedisStore 1) envOkW (sessW "" (-1))
      (by decide) rfl).2.2 () rfl).2⟩

/-- The configured expiry window of the first codec that can seal (the
first SecureCookie in the list). -/
def firstSecureMaxAge : List Codec → Option Int
  | [] => none
  | Codec.secureCookie ma :: _ => some ma
  | Codec.other _ :: rest => firstSecureMaxAge rest

theorem encodeMultiModel_sealed (name theId : String) (cs : List Codec)
    (n i : String) (ma : Int)
    (h : encodeMultiModel name theId cs = Except.ok (CookieValue.sealed n i ma)) :
    firstSecureMaxAge cs = some ma ∧ n = name ∧ i = theId := by
  induction cs with
  | nil => exact absurd h (by simp [encodeMultiModel])
  | cons c rest ih =>
    cases c with
    | secureCookie m =>
      have h2 : CookieValue.sealed name theId m = CookieValue.sealed n i ma := by
        injection h
      injection h2 with hn hi hm
      subst hn
      subst hi
      subst hm
      exact ⟨rfl, rfl, rfl⟩
    | other t => exact ih h

/-- C7 (amended): the cookie value Save seals carries the configured
max-age of the first usable codec — a store-wide quantity set at
construction (30 days by default) or by SetMaxAge — not a max-age
derived from the saved session's own Options.MaxAge; the session
Options only shape the cookie attributes. -/
theorem seal_uses_codec_window (rs : RedisStore) (env : Env) (s : Session)
    (c : Cookie) (hc : c ∈ (RedisStore.Save rs env s).cookies)
    (n i : String) (ma : Int) (hv : c.value = CookieValue.sealed n i ma) :
    firstSecureMaxAge rs.codecs = some ma ∧ n = s.name ∧ i = (saveInput env s).id := by
  by_cases hma : s.options.maxAge < 0
  · cases hdel : rs.delete env s with
    | none =>
      rw [Save_del_ok rs env s hma hdel] at hc
      have hcv : c = ⟨s.name, CookieValue.empty, s.options⟩ := by simpa using hc
      rw [hcv] at hv
      exact absurd hv (by simp)
    | some e =>
      rw [Save_del_err rs env s e hma hdel] at hc
      simp at hc
  · rcases hs : rs.save env (saveInput env s) with ⟨e?, sets⟩
    cases e? with
    | some e =>
      rw [Save_save_err rs env s e sets hma hs] at hc
      simp at hc
    | none =>
      cases henc : encodeMultiModel (saveInput env s).name (saveInput env s).id
          rs.codecs with
      | error e =>
        rw [Save_enc_err rs env s e sets hma hs henc] at hc
        simp at hc
      | ok cv =>
        rw [Save_enc_ok rs env s cv sets hma hs henc] at hc
        have hcv : c = ⟨(saveInput env s).name, cv, (saveInput env s).options⟩ := by
          simpa using hc
        rw [hcv] at hv
        simp only at hv
        rw [hv] at henc
        obtain ⟨h1, h2, h3⟩ := encodeMultiModel_sealed _ _ _ n i ma henc
        exact ⟨h1, by rw [h2, saveInput_name], h3⟩

/-- Witness for C7's amended theorem at a concrete run of Save. -/
theorem seal_uses_codec_window_witness :
    firstSecureMaxAge (NewRedisStore 1).codecs = some 2592000
    ∧ "mysession" = (sessW "abc" 7).name
    ∧ "abc" = (saveInput envOkW (sessW "abc" 7)).id :=
  seal_uses_codec_window (NewRedisStore 1) envOkW (sessW "abc" 7)
    ⟨"mysession", CookieValue.sealed "mysession" "abc" 2592000, optsW 7⟩
    (by decide) "mysession" "abc" 2592000 rfl

/-- Counterexample to C7 as stated: on a default store the sealed
max-age is the codec's 30-day window (2592000 s) even though the
session's Options.MaxAge is 7 — and the sealed value does not change at
all when the session's Options.MaxAge changes, so it is not derived
from it. -/
theorem seal_maxAge_counterexample :
    (RedisStore.Save (NewRedisStore 1) envOkW (sessW "abc" 7)).cookies
      = [⟨"mysession", CookieValue.sealed "mysession" "abc" 2592000, optsW 7⟩]
    ∧ (sessW "abc" 7).options.maxAge = 7
    ∧ RedisStore.effectiveTTL (NewRedisStore 1) (sessW "abc" 7) = 7
    ∧ (2592000 : Int) ≠ 7
    ∧ (RedisStore.Save (NewRedisStore 1) envOkW (sessW "abc" 7)).cookies.map
          Cookie.value
        = (RedisStore.Save (NewRedisStore 1) envOkW (sessW "abc" 9999)).cookies.map
          Cookie.value := by
  refine ⟨by decide, rfl, by decide, by decide, by decide⟩

/-- The decode oracle that accepts the raw cookie value as the id. -/
def decodeOkW : String → String → Except String String := fun _ v => Except.ok v

/-- C1: New always returns a fresh Record (its name is the requested
name, isNew is true) together with any authentication or load error: a
cookie decode failure, a backend GET miss/error or a deserialization
failure each surface their error while the record keeps `isNew = true`,
and `isNew` becomes false exactly when the decode, the GET and the
deserialization all succeeded. -/
theorem new_spec (rs : RedisStore) (cookie : Option String)
    (decode : String → String → Except String String) (env : Env) (name : String) :
    ((RedisStore.New rs cookie decode env name).1.name = name)
    ∧ ((RedisStore.New rs cookie decode env name).2 ≠ none →
        (RedisStore.New rs cookie decode env name).1.isNew = true)
    ∧ (∀ cv e, cookie = some cv → decode name cv = Except.error e →
        (RedisStore.New rs cookie decode env name).2 = some e)
    ∧ (∀ cv i e, cookie = some cv → decode name cv = Except.ok i →
        env.getResult (rs.keyPref ++ i) = Except.error e →
        (RedisStore.New rs cookie decode env name).2 = some e)
    ∧ (∀ cv i data e, cookie = some cv → decode name cv = Except.ok i →
        env.getResult (rs.keyPref ++ i) = Except.ok data →
        rs.serializer.deserialize data = Except.error e →
        (RedisStore.New rs cookie decode env name).2 = some e)
    ∧ ((RedisStore.New rs cookie decode env name).1.isNew = false ↔
        ((RedisStore.New rs cookie decode env name).2 = none
         ∧ ∃ cv i data vs, cookie = some cv ∧ decode name cv = Except.ok i
             ∧ env.getResult (rs.keyPref ++ i) = Except.ok data
             ∧ rs.serializer.deserialize data = Except.ok vs)) := by
  cases cookie with
  | none =>
    refine ⟨rfl, fun h => absurd rfl h, ?_, ?_, ?_, ?_⟩
    · intro cv e hcv
      exact Option.noConfusion hcv
    · intro cv i e hcv
      exact Option.noConfusion hcv
    · intro cv i data e hcv
      exact Option.noConfusion hcv
    · constructor
      · intro h
        exact absurd h (by simp [RedisStore.New, RedisStore.newSessionBase])
      · rintro ⟨-, cv, i, data, vs, hcv, -⟩
        exact Option.noConfusion hcv
  | some cv0 =>
    cases hd : decode name cv0 with
    | error e0 =>
      refine ⟨by simp [RedisStore.New, hd, RedisStore.newSessionBase],
        ?_, ?_, ?_, ?_, ?_⟩
      · intro _
        simp [RedisStore.New, hd, RedisStore.newSessionBase]
      · intro cv e hcv hde
        obtain rfl : cv0 = cv := by injection hcv
        rw [hd] at hde
        injection hde with he
        simp [RedisStore.New, hd, he]
      · intro cv i e hcv hde
        obtain rfl : cv0 = cv := by injection hcv
        rw [hd] at hde
        exact Except.noConfusion hde
      · intro cv i data e hcv hde
        obtain rfl : cv0 = cv := by injection hcv
        rw [hd] at hde
        exact Except.noConfusion hde
      · simp [RedisStore.New, hd, RedisStore.newSessionBase]
    | ok i0 =>
      cases hg : env.getResult (rs.keyPref ++ i0) with
      | error e0 =>
        refine ⟨by simp [RedisStore.New, RedisStore.load, hd, hg,
            RedisStore.newSessionBase], ?_, ?_, ?_, ?_, ?_⟩
        · intro _
          simp [RedisStore.New, RedisStore.load, hd, hg, RedisStore.newSessionBase]
        · intro cv e hcv hde
          obtain rfl : cv0 = cv := by injection hcv
          rw [hd] at hde
          exact Except.noConfusion hde
        · intro cv i e hcv hde hge
          obtain rfl : cv0 = cv := by injection hcv
          rw [hd] at hde
          injection hde with hi
          subst hi
          rw [hg] at hge
          injection hge with he
          simp [RedisStore.New, RedisStore.load, hd, hg, he,
            RedisStore.newSessionBase]
        · intro cv i data e hcv hde hge
          obtain rfl : cv0 = cv := by injection hcv
          rw [hd] at hde
          injection hde with hi
          subst hi
          rw [hg] at hge
          exact Except.noConfusion hge
        · simp [RedisStore.New, RedisStore.load, hd, hg, RedisStore.newSessionBase]
      | ok data0 =>
        cases hds : rs.serializer.deserialize data0 with
        | error e0 =>
          refine ⟨by simp [RedisStore.New, RedisStore.load, hd, hg, hds,
              RedisStore.newSessionBase], ?_, ?_, ?_, ?_, ?_⟩
          · intro _
            simp [RedisStore.New, RedisStore.load, hd, hg, hds,
              RedisStore.newSessionBase]
          · intro cv e hcv hde
            obtain rfl : cv0 = cv := by injection hcv
            rw [hd] at hde
            exact Except.noConfusion hde
          · intro cv i e hcv hde hge
            obtain rfl : cv0 = cv := by injection hcv
            rw [hd] at hde
            injection hde with hi
            subst hi
            rw [hg] at hge
            exact Except.noConfusion hge
          · intro cv i data e hcv hde hge hdse
            obtain rfl : cv0 = cv := by injection hcv
            rw [hd] at hde
            injection hde with hi
            subst hi
            rw [hg] at hge
            injection hge with hdata
            subst hdata
            rw [hds] at hdse
            injection hdse with he
            simp [RedisStore.New, RedisStore.load, hd, hg, hds, he,
              RedisStore.newSessionBase]
          · simp [RedisStore.New, RedisStore.load, hd, hg, hds,
              RedisStore.newSessionBase]
        | ok vs0 =>
          refine ⟨by simp [RedisStore.New, RedisStore.load, hd, hg, hds,
              RedisStore.newSessionBase], ?_, ?_, ?_, ?_, ?_⟩
          · intro h
            exact absurd (by simp [RedisStore.New, RedisStore.load, hd, hg, hds]) h
          · intro cv e hcv hde
            obtain rfl : cv0 = cv := by injection hcv
            rw [hd] at hde
            exact Except.noConfusion hde
          · intro cv i e hcv hde hge
            obtain rfl : cv0 = cv := by injection hcv
            rw [hd] at hde
            injection hde with hi
            subst hi
            rw [hg] at hge
            exact Except.noConfusion hge
          · intro cv i data e hcv hde hge hdse
            obtain rfl : cv0 = cv := by injection hcv
            rw [hd] at hde
            injection hde with hi
            subst hi
            rw [hg] at hge
            injection hge with hdata
            subst hdata
            rw [hds] at hdse
            exact Except.noConfusion hdse
          · constructor
            · intro _
              exact ⟨by simp [RedisStore.New, RedisStore.load, hd, hg, hds],
                cv0, i0, data0, vs0, rfl, hd, hg, hds⟩
            · intro _
              simp [RedisStore.New, RedisStore.load, hd, hg, hds]

/-- Witness for C1: when decode, GET and deserialize all succeed, the
returned record is not new. -/
theorem new_spec_witness :
    (RedisStore.New (NewRedisStore 1) (some "abc") decodeOkW envOkW
      "mysession").1.isNew = false :=
  (new_spec (NewRedisStore 1) (some "abc") decodeOkW envOkW "mysession").2.2.2.2.2.mpr
    ⟨rfl, "abc", "abc", gobEncode [], [], rfl, rfl, rfl, rfl⟩

/-- C8: the options copy at New lines 88–89 allocates a fresh cell
holding a copy of the store's Options, so writing through the session's
options pointer leaves the store's cell (and any other cell) unchanged. -/
theorem new_options_copied (heap : List Options) (p : Nat) (hp : p < heap.length)
    (newOpts : Options) :
    (copyOptionsAlloc heap p).2 ≠ p
    ∧ (copyOptionsAlloc heap p).1.getD (copyOptionsAlloc heap p).2 default
        = heap.getD p default
    ∧ ∀ q, q < heap.length →
        ((copyOptionsAlloc heap p).1.set (copyOptionsAlloc heap p).2 newOpts).getD
            q default
          = heap.getD q default := by
  refine ⟨?_, ?_, ?_⟩
  · simp only [copyOptionsAlloc]
    omega
  · simp only [copyOptionsAlloc]
    rw [List.getD_eq_getElem?_getD, List.getElem?_concat_length]
    rfl
  · intro q hq
    simp only [copyOptionsAlloc]
    rw [List.getD_eq_getElem?_getD, List.getD_eq_getElem?_getD,
      List.getElem?_set_ne (show heap.length ≠ q by omega),
      List.getElem?_append, if_pos hq, ← List.getD_eq_getElem?_getD]

/-- Witness for C8 on a one-cell heap. -/
theorem new_options_copied_witness :
    (copyOptionsAlloc [optsW 5] 0).2 ≠ 0
    ∧ ((copyOptionsAlloc [optsW 5] 0).1.set (copyOptionsAlloc [optsW 5] 0).2
          (optsW 9)).getD 0 default
        = [optsW 5].getD 0 default :=
  ⟨(new_options_copied [optsW 5] 0 (by decide) (optsW 9)).1,
   (new_options_copied [optsW 5] 0 (by decide) (optsW 9)).2.2 0 (by decide)⟩
